import Mathlib

/-!
Verification development for the Auxmos pressure-equalization engine
(`src/gas.rs` and `src/turfs/katmos.rs`).

Modelling conventions:
* `f32` values are embedded as `ℚ`; every numeric manipulation in the source
  is mirrored exactly, so tolerance statements of the design become exact
  rational equalities here.
* Interior mutability (`Cell<f32>`, `RwLock`) becomes explicit state passing.
* Loops whose bound is data-dependent take an explicit fuel argument; all
  theorems are fuel-generic unless a claim is about a concrete run.
* `GasMixture` internals (`gas_mixture.rs`) and the turf arena
  (`turfs/mod.rs`) are not under `src/`; the pieces of them that the claims
  need are modelled from the spec and carry doc comments saying so.
-/

namespace Auxmos

/-- Modelled from the spec: `gas_mixture.rs` is not under `src/`.  A gas
mixture is reduced to the data the pool claims need: its total moles and its
volume.  `from_vol` builds an empty mixture of the given volume. -/
structure GasMixture where
  moles : ℚ
  volume : ℚ
deriving DecidableEq, Repr

instance : Inhabited GasMixture := ⟨⟨0, 0⟩⟩

/-- Modelled from the spec: a freshly allocated mixture holds no gas. -/
def GasMixture.from_vol (v : ℚ) : GasMixture := ⟨0, v⟩

/-- Modelled from the spec: `clear_with_vol` zeroes the quantities and resets
the volume (used by `register_gasmix` when reusing a slot). -/
def GasMixture.clear_with_vol (_g : GasMixture) (v : ℚ) : GasMixture := ⟨0, v⟩

/-- The state of the mixture pool of `gas.rs`: the `GAS_MIXTURES` vector, the
`NEXT_GAS_IDS` free list (a Rust `Vec` used as a stack: we keep the top of the
stack at the head of the list), and — as a ghost field — the set of slot
indices currently held by a registered host object (in `gas.rs` this set is
implicit: it is the set of host values whose `_extools_pointer_gasmixture`
field is non-null). -/
structure PoolState where
  mixtures : List GasMixture
  free : List Nat
  live : Finset Nat
deriving DecidableEq

/-- `GasMixtures::register_gasmix` (gas.rs:298-325): if the free list is
empty, push a fresh mixture at the end of the vector and hand out its index;
otherwise pop the most recently freed index, clear that slot with the new
volume, and hand it out.  Returns the index written onto the host object. -/
def register_gasmix (s : PoolState) (initial_volume : ℚ) : Nat × PoolState :=
  match s.free with
  | [] =>
      let next_idx := s.mixtures.length
      (next_idx,
        { mixtures := s.mixtures ++ [GasMixture.from_vol initial_volume]
          free := []
          live := insert next_idx s.live })
  | idx :: rest =>
      (idx,
        { mixtures :=
            s.mixtures.set idx
              ((s.mixtures.getD idx default).clear_with_vol initial_volume)
          free := rest
          live := insert idx s.live })

/-- `GasMixtures::unregister_gasmix` (gas.rs:327-334): push the handle's index
onto the free list and null the handle.  The slot's contents are not touched. -/
def unregister_gasmix (s : PoolState) (idx : Nat) : PoolState :=
  { mixtures := s.mixtures
    free := idx :: s.free
    live := s.live.erase idx }

/-- Pool consistency: the free list has no duplicates, free and live indices
are in range, and no index is simultaneously free and live. -/
def PoolInv (s : PoolState) : Prop :=
  s.free.Nodup ∧
  (∀ i ∈ s.free, i < s.mixtures.length) ∧
  (∀ i ∈ s.live, i < s.mixtures.length) ∧
  (∀ i ∈ s.free, i ∉ s.live)

theorem register_preserves_inv (s : PoolState) (v : ℚ) (h : PoolInv s) :
    PoolInv (register_gasmix s v).2 := by
  obtain ⟨hnd, hfr, hlr, hdisj⟩ := h
  cases hfree : s.free with
  | nil =>
      simp only [register_gasmix, hfree, PoolInv]
      refine ⟨List.nodup_nil, by simp, ?_, by simp⟩
      intro i hi
      rcases Finset.mem_insert.mp hi with rfl | hi
      · simp
      · have := hlr i hi
        simp only [List.length_append, List.length_singleton]
        omega
  | cons idx rest =>
      simp only [register_gasmix, hfree, PoolInv]
      rw [hfree] at hnd hfr hdisj
      have hlen : (s.mixtures.set idx
          ((s.mixtures.getD idx default).clear_with_vol v)).length
          = s.mixtures.length := List.length_set _ _ _
      refine ⟨(List.nodup_cons.mp hnd).2, ?_, ?_, ?_⟩
      · intro i hi
        rw [hlen]; exact hfr i (List.mem_cons_of_mem _ hi)
      · intro i hi
        rw [hlen]
        rcases Finset.mem_insert.mp hi with rfl | hi
        · exact hfr i (List.mem_cons_self _ _)
        · exact hlr i hi
      · intro i hi hmem
        rcases Finset.mem_insert.mp hmem with rfl | hmem
        · exact (List.nodup_cons.mp hnd).1 hi
        · exact hdisj i (List.mem_cons_of_mem _ hi) hmem

theorem register_fresh (s : PoolState) (v : ℚ) (h : PoolInv s) :
    (register_gasmix s v).1 ∉ s.live := by
  obtain ⟨_, _, hlr, hdisj⟩ := h
  cases hfree : s.free with
  | nil =>
      simp only [register_gasmix, hfree]
      intro hmem
      exact absurd (hlr _ hmem) (lt_irrefl _)
  | cons idx rest =>
      simp only [register_gasmix, hfree]
      rw [hfree] at hdisj
      exact hdisj idx (List.mem_cons_self _ _)

theorem unregister_preserves_inv (s : PoolState) (idx : Nat)
    (h : PoolInv s) (hlive : idx ∈ s.live) (hfree : idx ∉ s.free) :
    PoolInv (unregister_gasmix s idx) := by
  obtain ⟨hnd, hfr, hlr, hdisj⟩ := h
  refine ⟨List.nodup_cons.mpr ⟨hfree, hnd⟩, ?_, ?_, ?_⟩
  · intro i hi
    rcases List.mem_cons.mp hi with rfl | hi
    · exact hlr i hlive
    · exact hfr i hi
  · intro i hi
    exact hlr i (Finset.mem_of_mem_erase hi)
  · intro i hi hmem
    rcases List.mem_cons.mp hi with rfl | hi
    · exact absurd rfl (Finset.ne_of_mem_erase hmem)
    · exact hdisj i hi (Finset.mem_of_mem_erase hmem)

/-- Allocate `n` slots in a row, returning the handed-out indices in order. -/
def allocMany : Nat → PoolState → ℚ → List Nat × PoolState
  | 0, s, _ => ([], s)
  | n + 1, s, v =>
      let p := register_gasmix s v
      let q := allocMany n p.2 v
      (p.1 :: q.1, q.2)

/-- Release a list of (live) slots in order. -/
def releaseMany (l : List Nat) (s : PoolState) : PoolState :=
  l.foldl unregister_gasmix s

theorem releaseMany_free (l : List Nat) (s : PoolState) :
    (releaseMany l s).free = l.reverse ++ s.free := by
  induction l generalizing s with
  | nil => simp [releaseMany]
  | cons x xs ih =>
      simp only [releaseMany, List.foldl_cons, List.reverse_cons]
      rw [show List.foldl unregister_gasmix (unregister_gasmix s x) xs
            = releaseMany xs (unregister_gasmix s x) from rfl, ih]
      simp [unregister_gasmix]

theorem releaseMany_mixtures (l : List Nat) (s : PoolState) :
    (releaseMany l s).mixtures = s.mixtures := by
  induction l generalizing s with
  | nil => rfl
  | cons x xs ih =>
      simp only [releaseMany, List.foldl_cons]
      exact ih (unregister_gasmix s x)

theorem releaseMany_live (l : List Nat) (s : PoolState) :
    (releaseMany l s).live = l.foldl Finset.erase s.live := by
  induction l generalizing s with
  | nil => rfl
  | cons x xs ih =>
      simp only [releaseMany, List.foldl_cons] at *
      exact ih (unregister_gasmix s x)

/-- When the free list holds exactly the stack `f`, allocating `f.length`
slots hands back exactly `f` in order, emptying the free list and leaving the
vector length unchanged. -/
theorem allocMany_drains_free (f : List Nat) (s : PoolState) (v : ℚ)
    (hf : s.free = f) (hrange : ∀ i ∈ f, i < s.mixtures.length) :
    (allocMany f.length s v).1 = f ∧
    (allocMany f.length s v).2.free = [] ∧
    (allocMany f.length s v).2.mixtures.length = s.mixtures.length ∧
    (allocMany f.length s v).2.live = s.live ∪ f.toFinset := by
  induction f generalizing s with
  | nil =>
      exact ⟨rfl, hf, rfl, by simp [allocMany]⟩
  | cons x xs ih =>
      have hreg : register_gasmix s v =
          (x, { mixtures := s.mixtures.set x
                  ((s.mixtures.getD x default).clear_with_vol v)
                free := xs
                live := insert x s.live }) := by
        simp [register_gasmix, hf]
      have hx := hrange x (List.mem_cons_self _ _)
      have hlen : (s.mixtures.set x
          ((s.mixtures.getD x default).clear_with_vol v)).length
          = s.mixtures.length := List.length_set _ _ _
      obtain ⟨h1, h2, h3, h4⟩ := ih
        (s := { mixtures := s.mixtures.set x
                  ((s.mixtures.getD x default).clear_with_vol v)
                free := xs
                live := insert x s.live })
        rfl
        (by intro i hi; rw [hlen]; exact hrange i (List.mem_cons_of_mem _ hi))
      refine ⟨?_, ?_, ?_, ?_⟩
      · simp only [List.length_cons, allocMany, hreg, h1]
      · simp only [List.length_cons, allocMany, hreg, h2]
      · simp only [List.length_cons, allocMany, hreg, h3, hlen]
      · simp only [List.length_cons, allocMany, hreg, h4]
        rw [List.toFinset_cons]
        ext i
        simp only [Finset.mem_union, Finset.mem_insert, List.mem_toFinset]
        tauto

theorem allocMany_from_empty_free (n : Nat) (s : PoolState) (v : ℚ)
    (hf : s.free = []) :
    (allocMany n s v).1 = (List.range n).map (· + s.mixtures.length) ∧
    (allocMany n s v).2.free = [] ∧
    (allocMany n s v).2.mixtures.length = s.mixtures.length + n := by
  induction n generalizing s with
  | zero => exact ⟨by simp [allocMany], hf, by simp [allocMany]⟩
  | succ n ih =>
      have hreg : register_gasmix s v =
          (s.mixtures.length,
            { mixtures := s.mixtures ++ [GasMixture.from_vol v]
              free := []
              live := insert s.mixtures.length s.live }) := by
        simp [register_gasmix, hf]
      obtain ⟨h1, h2, h3⟩ := ih
        (s := { mixtures := s.mixtures ++ [GasMixture.from_vol v]
                free := []
                live := insert s.mixtures.length s.live }) rfl
      refine ⟨?_, ?_, ?_⟩
      · simp only [allocMany, hreg, h1]
        simp only [List.length_append, List.length_singleton]
        rw [List.range_succ_eq_map]
        simp only [List.map_cons, List.map_map, Nat.zero_add]
        congr 1
        apply List.map_congr_left
        intro a _
        simp only [Function.comp_apply]
        omega
      · simp only [allocMany, hreg, h2]
      · simp only [allocMany, hreg, h3]
        simp only [List.length_append, List.length_singleton]
        omega

theorem foldl_erase_eq_sdiff (l : List Nat) (A : Finset Nat) :
    l.foldl Finset.erase A = A \ l.toFinset := by
  induction l generalizing A with
  | nil => simp
  | cons x xs ih =>
      simp only [List.foldl_cons, ih, List.toFinset_cons]
      rw [Finset.erase_eq]
      ext i
      simp only [Finset.mem_sdiff, Finset.mem_singleton, Finset.mem_insert,
        List.mem_toFinset]
      tauto

theorem getD_set_self (l : List GasMixture) (i : Nat) (a : GasMixture)
    (h : i < l.length) : (l.set i a).getD i default = a := by
  rw [List.getD_eq_getElem?_getD, List.getElem?_set_self (by omega)]
  rfl

/-- C7: the claim says releasing a slot both returns its index to the free
list and clears the slot's contents.  The code (`unregister_gasmix`,
gas.rs:327-334) only pushes the index onto `NEXT_GAS_IDS` and nulls the
handle; the slot's mixture is untouched.  Concretely: releasing slot 0 of a
pool whose slot 0 holds 5 moles leaves those 5 moles in place. -/
theorem C7_counterexample :
    ((unregister_gasmix ⟨[⟨5, 70⟩], [], {0}⟩ 0).mixtures.getD 0 default).moles = 5 ∧
    (5 : ℚ) ≠ 0 := by
  refine ⟨rfl, by norm_num⟩

/-- C7 (amended): releasing a live slot returns its index to the free list
and removes the handle from the live set, but leaves the slot's contents in
place; the contents are cleared only when the slot is next allocated
(`register_gasmix` pops the index and runs `clear_with_vol`).  The pool
invariant is preserved, so no two live handles are ever bound to the same
slot index, and the index handed out by the following allocation was not
live. -/
theorem C7_release_semantics (s : PoolState) (idx : Nat) (v : ℚ)
    (h : PoolInv s) (hlive : idx ∈ s.live) (hfree : idx ∉ s.free) :
    (unregister_gasmix s idx).free = idx :: s.free ∧
    (unregister_gasmix s idx).mixtures = s.mixtures ∧
    idx ∉ (unregister_gasmix s idx).live ∧
    PoolInv (unregister_gasmix s idx) ∧
    (register_gasmix (unregister_gasmix s idx) v).1 = idx ∧
    (register_gasmix (unregister_gasmix s idx) v).2.mixtures.getD idx default
      = GasMixture.from_vol v ∧
    (register_gasmix (unregister_gasmix s idx) v).1
      ∉ (unregister_gasmix s idx).live := by
  have hinv := unregister_preserves_inv s idx h hlive hfree
  have hidx : idx < s.mixtures.length := h.2.2.1 idx hlive
  refine ⟨rfl, rfl, Finset.not_mem_erase _ _, hinv, rfl, ?_,
    register_fresh _ v hinv⟩
  show ((s.mixtures.set idx _).getD idx default) = GasMixture.from_vol v
  rw [getD_set_self _ _ _ hidx]
  rfl

theorem C7_release_semantics_witness :
    PoolInv ⟨[⟨2, 5⟩, ⟨3, 7⟩], [], {0, 1}⟩ ∧
    1 ∈ (⟨[⟨2, 5⟩, ⟨3, 7⟩], [], {0, 1}⟩ : PoolState).live ∧
    (1 : Nat) ∉ (⟨[⟨2, 5⟩, ⟨3, 7⟩], [], {0, 1}⟩ : PoolState).free ∧
    (unregister_gasmix ⟨[⟨2, 5⟩, ⟨3, 7⟩], [], {0, 1}⟩ 1).free = [1] := by
  have hinv : PoolInv ⟨[⟨2, 5⟩, ⟨3, 7⟩], [], {0, 1}⟩ := by
    refine ⟨List.nodup_nil, by simp, ?_, by simp⟩
    intro i hi
    fin_cases hi <;> norm_num
  have hlive : (1 : Nat) ∈ (⟨[⟨2, 5⟩, ⟨3, 7⟩], [], {0, 1}⟩ : PoolState).live := by
    simp
  have hfree : (1 : Nat) ∉ (⟨[⟨2, 5⟩, ⟨3, 7⟩], [], {0, 1}⟩ : PoolState).free := by
    simp
  exact ⟨hinv, hlive, hfree,
    (C7_release_semantics ⟨[⟨2, 5⟩, ⟨3, 7⟩], [], {0, 1}⟩ 1 70 hinv hlive hfree).1⟩

/-- C8: allocation pops the most recently released index when the free list
is non-empty (last two conjuncts: `register_gasmix` returns the head of the
free-list stack, and appends a fresh slot only when the free list is
empty); allocating `n` slots from an empty pool hands out `0..n-1`,
releasing the distinct indices `l` (a strict subset of the live ones) and
allocating `l.length` more hands back exactly the released indices (in
reverse release order), each of which was not live at the start of the
reallocation, and the free list ends empty. -/
theorem C8_slot_reuse (n : Nat) (l : List Nat) (v : ℚ)
    (hnd : l.Nodup) (hsub : ∀ i ∈ l, i < n) (hlt : l.length < n) :
    (allocMany n ⟨[], [], ∅⟩ v).1 = List.range n ∧
    (releaseMany l (allocMany n ⟨[], [], ∅⟩ v).2).free = l.reverse ∧
    (allocMany l.length (releaseMany l (allocMany n ⟨[], [], ∅⟩ v).2) v).1
      = l.reverse ∧
    (allocMany l.length (releaseMany l (allocMany n ⟨[], [], ∅⟩ v).2) v).2.free
      = [] ∧
    (∀ i ∈ (allocMany l.length
        (releaseMany l (allocMany n ⟨[], [], ∅⟩ v).2) v).1,
      i ∉ (releaseMany l (allocMany n ⟨[], [], ∅⟩ v).2).live) ∧
    (∀ (s : PoolState) (idx : Nat) (rest : List Nat),
      s.free = idx :: rest → (register_gasmix s v).1 = idx) ∧
    (∀ s : PoolState, s.free = [] →
      (register_gasmix s v).1 = s.mixtures.length) := by
  obtain ⟨h1, h2, h3⟩ :=
    allocMany_from_empty_free n (⟨[], [], ∅⟩ : PoolState) v rfl
  set s1 := (allocMany n ⟨[], [], ∅⟩ v).2 with hs1
  have h1' : (allocMany n ⟨[], [], ∅⟩ v).1 = List.range n := by
    rw [h1]; simp
  have hs1len : s1.mixtures.length = n := by simpa using h3
  have hfree2 : (releaseMany l s1).free = l.reverse := by
    rw [releaseMany_free, h2, List.append_nil]
  have hmix2 : (releaseMany l s1).mixtures = s1.mixtures :=
    releaseMany_mixtures l s1
  have hrange : ∀ i ∈ l.reverse, i < (releaseMany l s1).mixtures.length := by
    intro i hi
    rw [hmix2, hs1len]
    exact hsub i (List.mem_reverse.mp hi)
  obtain ⟨g1, g2, _, _⟩ :=
    allocMany_drains_free l.reverse (releaseMany l s1) v hfree2 hrange
  have hlen : l.reverse.length = l.length := List.length_reverse l
  refine ⟨h1', hfree2, ?_, ?_, ?_, ?_, ?_⟩
  · rw [← hlen]; exact g1
  · rw [← hlen]; exact g2
  · intro i hi
    rw [← hlen, g1] at hi
    rw [releaseMany_live, foldl_erase_eq_sdiff]
    simp only [Finset.mem_sdiff, List.mem_toFinset, not_and, not_not]
    intro _
    exact List.mem_reverse.mp hi
  · intro s idx rest hf
    simp [register_gasmix, hf]
  · intro s hf
    simp [register_gasmix, hf]

theorem C8_slot_reuse_witness :
    ([1, 0] : List Nat).Nodup ∧ (∀ i ∈ ([1, 0] : List Nat), i < 3) ∧
    ([1, 0] : List Nat).length < 3 ∧
    (allocMany 3 ⟨[], [], ∅⟩ (70 : ℚ)).1 = [0, 1, 2] ∧
    (allocMany 2 (releaseMany [1, 0] (allocMany 3 ⟨[], [], ∅⟩ (70 : ℚ)).2)
      (70 : ℚ)).1 = [0, 1] := by
  have hnd : ([1, 0] : List Nat).Nodup := by decide
  have hsub : ∀ i ∈ ([1, 0] : List Nat), i < 3 := by decide
  have hlt : ([1, 0] : List Nat).length < 3 := by decide
  have h := C8_slot_reuse 3 [1, 0] 70 hnd hsub hlt
  exact ⟨hnd, hsub, hlt, by simpa using h.1, h.2.2.1⟩

/-! ## katmos.rs: zoned equalization -/

/-- Node identifiers of the turf adjacency graph (`petgraph::NodeIndex`). -/
abbrev NodeIdx := Nat

/-- Modelled from the spec: `turfs/mod.rs` is not under `src/`.  A
`TurfMixture` carries the cell's BYOND id, its bound gas-arena slot index,
an enabled flag, the immutability ("space") flag mirrored from its mixture,
and the optional planetary-atmosphere marker. -/
structure TurfMixture where
  id : Nat
  mix : Nat
  enabled_flag : Bool
  immutable : Bool
  planetary_atmos : Option Nat
deriving DecidableEq, Repr

def TurfMixture.enabled (t : TurfMixture) : Bool := t.enabled_flag

def TurfMixture.is_immutable (t : TurfMixture) : Bool := t.immutable

/-- Modelled from the spec: a directed adjacency-graph edge with its flag
bitset reduced to the one bit katmos.rs consults,
`AdjacentFlags::ATMOS_ADJACENT_FIRELOCK`. -/
structure AdjEdge where
  src : NodeIdx
  dst : NodeIdx
  firelock : Bool
deriving DecidableEq, Repr

/-- Modelled from the spec: the read-locked turf arena (`TurfGases` of
`turfs/mod.rs`): node lookup and the directed adjacency edge list. -/
structure TurfGases where
  turfs : NodeIdx → Option TurfMixture
  adj : List AdjEdge

def TurfGases.get (arena : TurfGases) (n : NodeIdx) : Option TurfMixture :=
  arena.turfs n

/-- The outgoing edges of a node, in list order (`arena.graph.edges(n)`). -/
def TurfGases.edgesOf (arena : TurfGases) (n : NodeIdx) : List AdjEdge :=
  arena.adj.filter (fun e => e.src = n)

/-- Modelled from the spec: `arena.adjacent_node_ids(n)` iterates the targets
of the outgoing edges of `n`. -/
def TurfGases.adjacent_node_ids (arena : TurfGases) (n : NodeIdx) :
    List NodeIdx :=
  (arena.edgesOf n).map AdjEdge.dst

/-- The total moles held in each gas-arena slot (`GasArena` /
`GAS_MIXTURES`); `turfs/mod.rs`'s `TurfMixture::total_moles` reads the slot
named by the turf's `mix` field. -/
abbrev Moles := Nat → ℚ

/-- The node and edge sets of a zone's transfer graph
(`DiGraphMap<NodeIndex, Cell<f32>>`).  After `flood_fill_zones` builds it the
structure is never changed — only the per-edge `Cell<f32>` weights are — so
the topology and the weights are separated in the model. -/
structure ZoneTopo where
  nodes : List NodeIdx
  edges : List (NodeIdx × NodeIdx)
deriving DecidableEq, Repr

/-- The mutable per-directed-edge accumulated transfer weights (the
`Cell<f32>` edge payloads). -/
abbrev Weights := NodeIdx → NodeIdx → ℚ

/-- Write one directed edge's weight cell. -/
def setW (w : Weights) (a b : NodeIdx) (v : ℚ) : Weights :=
  fun x y => if x = a ∧ y = b then v else w x y

/-- The targets of the outgoing transfer-graph edges of `n`
(`eq_movement_graph.neighbors(n)`). -/
def ZoneTopo.neighbors (t : ZoneTopo) (n : NodeIdx) : List NodeIdx :=
  (t.edges.filter (fun e => e.1 = n)).map Prod.snd

/-- `adjust_eq_movement` (katmos.rs:72-86): add `amount` to the weight of
edge `this → that` if it exists, and subtract `amount` from the weight of
edge `that → this` if it exists. -/
def adjust_eq_movement (this_turf that_turf : NodeIdx) (amount : ℚ)
    (t : ZoneTopo) (w : Weights) : Weights :=
  let w1 :=
    if (this_turf, that_turf) ∈ t.edges then
      setW w this_turf that_turf (w this_turf that_turf + amount)
    else w
  if (that_turf, this_turf) ∈ t.edges then
    setW w1 that_turf this_turf (w1 that_turf this_turf - amount)
  else w1

/-- The antisymmetry invariant of the transfer graph: whenever both
directions of a link are present, their accumulated weights are negatives of
each other. -/
def Antisym (t : ZoneTopo) (w : Weights) : Prop :=
  ∀ p ∈ t.edges, (p.2, p.1) ∈ t.edges → w p.1 p.2 = -w p.2 p.1

instance (t : ZoneTopo) (w : Weights) : Decidable (Antisym t w) := by
  unfold Antisym; infer_instance

theorem setW_eq (w : Weights) (a b : NodeIdx) (v : ℚ) : setW w a b v a b = v := by
  simp [setW]

theorem setW_ne (w : Weights) (a b x y : NodeIdx) (v : ℚ)
    (h : ¬(x = a ∧ y = b)) : setW w a b v x y = w x y := by
  simp [setW, h]

/-- A self-adjustment cancels out: the add and the subtract hit the same
cell, leaving every weight unchanged. -/
theorem adjust_eq_movement_self (a : NodeIdx) (amount : ℚ)
    (t : ZoneTopo) (w : Weights) (x y : NodeIdx) :
    adjust_eq_movement a a amount t w x y = w x y := by
  simp only [adjust_eq_movement]
  by_cases he : (a, a) ∈ t.edges
  · simp only [he, if_pos, setW]
    by_cases hxy : x = a ∧ y = a
    · simp [hxy]
    · simp [hxy]
  · simp [he]

theorem adjust_eq_movement_other (a b x y : NodeIdx) (amount : ℚ)
    (t : ZoneTopo) (w : Weights)
    (h1 : ¬(x = a ∧ y = b)) (h2 : ¬(x = b ∧ y = a)) :
    adjust_eq_movement a b amount t w x y = w x y := by
  simp only [adjust_eq_movement]
  by_cases hem : (a, b) ∈ t.edges <;> by_cases hrm : (b, a) ∈ t.edges <;>
    simp only [hem, hrm, if_pos, if_neg, not_false_iff, setW, h1, h2,
      if_false]

theorem adjust_eq_movement_fwd (a b : NodeIdx) (amount : ℚ)
    (t : ZoneTopo) (w : Weights) (hab : a ≠ b) (hem : (a, b) ∈ t.edges) :
    adjust_eq_movement a b amount t w a b = w a b + amount := by
  simp only [adjust_eq_movement, hem, if_pos]
  by_cases hrm : (b, a) ∈ t.edges
  · simp only [hrm, if_pos, setW]
    have : ¬(a = b ∧ b = a) := fun ⟨h, _⟩ => hab h
    simp [this]
  · simp [hrm, setW]

theorem adjust_eq_movement_rev (a b : NodeIdx) (amount : ℚ)
    (t : ZoneTopo) (w : Weights) (hab : a ≠ b) (hrm : (b, a) ∈ t.edges) :
    adjust_eq_movement a b amount t w b a = w b a - amount := by
  simp only [adjust_eq_movement, hrm, if_pos]
  by_cases hem : (a, b) ∈ t.edges <;>
    simp only [hem, if_pos, if_neg, not_false_iff, setW, if_false]
  · have : ¬(b = a ∧ a = b) := fun ⟨h, _⟩ => hab (h.symm)
    simp [this]
  · simp

/-- `adjust_eq_movement` preserves antisymmetry. -/
theorem adjust_eq_movement_antisym (a b : NodeIdx) (amount : ℚ)
    (t : ZoneTopo) (w : Weights) (h : Antisym t w) :
    Antisym t (adjust_eq_movement a b amount t w) := by
  intro p hp hrev
  obtain ⟨u, v⟩ := p
  simp only at hp hrev ⊢
  have huv : w u v = -w v u := h (u, v) hp hrev
  by_cases hab : a = b
  · subst hab
    rw [adjust_eq_movement_self, adjust_eq_movement_self]
    exact huv
  · by_cases hpab : u = a ∧ v = b
    · obtain ⟨rfl, rfl⟩ := hpab
      rw [adjust_eq_movement_fwd _ _ _ _ _ hab hp,
        adjust_eq_movement_rev _ _ _ _ _ hab hrev]
      linarith
    · by_cases hpba : u = b ∧ v = a
      · obtain ⟨rfl, rfl⟩ := hpba
        rw [adjust_eq_movement_rev _ _ _ _ _ hab hp,
          adjust_eq_movement_fwd _ _ _ _ _ hab hrev]
        linarith
      · rw [adjust_eq_movement_other _ _ _ _ _ _ _ hpab hpba,
          adjust_eq_movement_other _ _ _ _ _ _ _
            (fun ⟨h1, h2⟩ => hpba ⟨h2, h1⟩) (fun ⟨h1, h2⟩ => hpab ⟨h2, h1⟩)]
        exact huv

/-! ### Finalizer -/

/-- The state threaded through finalization: the transfer-graph weights, the
gas arena's per-slot total moles, and the accumulated pressure events. -/
structure FinState where
  w : Weights
  moles : Moles
  pressures : List (ℚ × Nat × Nat)

/-- Modelled from the spec: `gas_mixture.rs` is not under `src/`.
`other_air.merge(&air.remove(amount))` moves `amount` moles from slot `src`
into slot `dst`; `remove` takes no more than the mixture holds (quantities
stay ≥ 0) and `merge` adds exactly the removed gas. -/
def transferMoles (moles : Moles) (src dst : Nat) (amount : ℚ) : Moles :=
  let moved := min amount (moles src)
  fun i => if i = src then moles src - moved
           else if i = dst then moles i + moved
           else moles i

/-- The pair collection at the head of `finalize_eq` (katmos.rs:95-98):
each outgoing edge's target together with the weight read out of its cell. -/
def outgoingPairs (t : ZoneTopo) (w : Weights) (index : NodeIdx) :
    List (NodeIdx × ℚ) :=
  (t.edges.filter (fun e => e.1 = index)).map (fun e => (e.2, w index e.2))

/-- The `replace(0.0)` part of the pair collection: every outgoing edge cell
of `index` is left holding zero. -/
def zeroOutgoing (t : ZoneTopo) (index : NodeIdx) (w : Weights) : Weights :=
  fun x y => if x = index ∧ (x, y) ∈ t.edges then 0 else w x y

mutual

/-- `finalize_eq` (katmos.rs:88-126): read out and zero the outgoing edge
weights of `index`; for each positive pair whose target is in the arena, if
the turf currently holds fewer moles than the planned amount first finalize
the neighbours owed gas, then zero the reverse edge, move the gas when the
two slots differ, and record the pressure event.  The recursion through
`finalize_eq_neighbors` is bounded by fuel; every theorem below holds for
every fuel value. -/
def finalize_eq (fuel : Nat) (index : NodeIdx) (arena : TurfGases)
    (t : ZoneTopo) (st : FinState) : FinState :=
  match fuel with
  | 0 => st
  | fuel + 1 =>
    match arena.get index with
    | none => st
    | some turf =>
      let pairs := outgoingPairs t st.w index
      (pairs.filter (fun p => 0 < p.2)).foldl
        (fun st2 p =>
          match arena.get p.1 with
          | none => st2
          | some adj_mix =>
            let st3 := if st2.moles turf.mix < p.2 then
                finalize_eq_neighbors fuel index arena t pairs st2
              else st2
            let w2 := if (p.1, index) ∈ t.edges then setW st3.w p.1 index 0
              else st3.w
            let moles2 := if turf.mix ≠ adj_mix.mix then
                transferMoles st3.moles turf.mix adj_mix.mix p.2
              else st3.moles
            { w := w2, moles := moles2,
              pressures := st3.pressures ++ [(p.2, turf.id, adj_mix.id)] })
        { st with w := zeroOutgoing t index st.w }
termination_by (fuel, 0)

/-- `finalize_eq_neighbors` (katmos.rs:128-138): finalize every pair target
that is owed gas (negative weight). -/
def finalize_eq_neighbors (fuel : Nat) (_index : NodeIdx) (arena : TurfGases)
    (t : ZoneTopo) (pairs : List (NodeIdx × ℚ)) (st : FinState) : FinState :=
  (pairs.filter (fun p => p.2 < 0)).foldl
    (fun st2 p => finalize_eq fuel p.1 arena t st2) st
termination_by (fuel, 1)

end

/-- `finalize_eq_zone` (katmos.rs:730-739): finalize every node of the zone
in order, returning the new arena moles and the event list, `none` when no
event was produced. -/
def finalize_eq_zone (fuel : Nat) (arena : TurfGases) (t : ZoneTopo)
    (w : Weights) (moles : Moles) : Moles × Option (List (ℚ × Nat × Nat)) :=
  let st := t.nodes.foldl (fun st idx => finalize_eq fuel idx arena t st)
    ⟨w, moles, []⟩
  (st.moles, if st.pressures.isEmpty then none else some st.pressures)

/-- Pointwise description of a transfer. -/
theorem transferMoles_apply (m : Moles) (src dst : Nat) (amount : ℚ)
    (hne : src ≠ dst) (i : Nat) :
    transferMoles m src dst amount i
      = m i + (if i = dst then min amount (m src) else 0)
            - (if i = src then min amount (m src) else 0) := by
  simp only [transferMoles]
  by_cases h1 : i = src
  · subst h1
    simp [hne]
  · by_cases h2 : i = dst
    · subst h2
      simp [h1]
    · simp [h1, h2]

/-- A transfer between two distinct slots of the tracked set conserves the
total moles of that set. -/
theorem transferMoles_sum (slots : Finset Nat) (m : Moles) (src dst : Nat)
    (amount : ℚ) (hsrc : src ∈ slots) (hdst : dst ∈ slots) (hne : src ≠ dst) :
    Finset.sum slots (transferMoles m src dst amount)
      = Finset.sum slots m := by
  rw [Finset.sum_congr rfl
    (fun i _ => transferMoles_apply m src dst amount hne i)]
  rw [Finset.sum_sub_distrib, Finset.sum_add_distrib]
  rw [Finset.sum_ite_eq' slots dst (fun _ => min amount (m src)),
    Finset.sum_ite_eq' slots src (fun _ => min amount (m src))]
  simp [hsrc, hdst]

/-- Folding a sum-preserving step preserves the sum. -/
theorem foldl_molesum_invariant {α : Type} (slots : Finset Nat)
    (f : FinState → α → FinState) (l : List α) (st : FinState)
    (h : ∀ st2 x, x ∈ l →
      Finset.sum slots (f st2 x).moles = Finset.sum slots st2.moles) :
    Finset.sum slots (l.foldl f st).moles = Finset.sum slots st.moles := by
  induction l generalizing st with
  | nil => rfl
  | cons x xs ih =>
      rw [List.foldl_cons, ih _ (fun st2 y hy => h st2 y (List.mem_cons_of_mem _ hy)),
        h st x (List.mem_cons_self _ _)]

/-- Static soundness of a zone against the arena and a tracked slot set:
edges stay inside the node set, and every node's bound slot is tracked. -/
def SlotsOk (arena : TurfGases) (t : ZoneTopo) (slots : Finset Nat) : Prop :=
  (∀ e ∈ t.edges, e.1 ∈ t.nodes ∧ e.2 ∈ t.nodes) ∧
  (∀ n ∈ t.nodes, ∀ tm, arena.get n = some tm → tm.mix ∈ slots)

theorem outgoingPairs_target_mem (t : ZoneTopo) (w : Weights) (index : NodeIdx)
    (h1 : ∀ e ∈ t.edges, e.1 ∈ t.nodes ∧ e.2 ∈ t.nodes) :
    ∀ p ∈ outgoingPairs t w index, p.1 ∈ t.nodes := by
  intro p hp
  obtain ⟨e, he, rfl⟩ := List.mem_map.mp hp
  exact (h1 e (List.mem_filter.mp he).1).2

theorem finalize_eq_neighbors_sum_of (arena : TurfGases) (t : ZoneTopo)
    (slots : Finset Nat) (fuel : Nat) (idx0 : NodeIdx)
    (pairs : List (NodeIdx × ℚ)) (st : FinState)
    (hP : ∀ index st2, index ∈ t.nodes →
      Finset.sum slots (finalize_eq fuel index arena t st2).moles
        = Finset.sum slots st2.moles)
    (hp : ∀ p ∈ pairs, p.1 ∈ t.nodes) :
    Finset.sum slots (finalize_eq_neighbors fuel idx0 arena t pairs st).moles
      = Finset.sum slots st.moles := by
  rw [finalize_eq_neighbors]
  apply foldl_molesum_invariant
  intro st2 p hmem
  exact hP p.1 st2 (hp p (List.mem_filter.mp hmem).1)

/-- The finalizer never creates or destroys moles: for any fuel, finalizing
any node of a sound zone leaves the total moles of the tracked slots
unchanged. -/
theorem finalize_eq_sum (arena : TurfGases) (t : ZoneTopo)
    (slots : Finset Nat) (h : SlotsOk arena t slots) :
    ∀ fuel index st, index ∈ t.nodes →
      Finset.sum slots (finalize_eq fuel index arena t st).moles
        = Finset.sum slots st.moles := by
  intro fuel
  induction fuel with
  | zero =>
      intro index st _
      rw [finalize_eq]
  | succ fuel ih =>
      intro index st hindex
      rw [finalize_eq]
      cases harena : arena.get index with
      | none => rfl
      | some turf =>
        have hmix : turf.mix ∈ slots := h.2 index hindex turf harena
        simp only
        apply foldl_molesum_invariant
        intro st2 p hmem
        have hpairs : p ∈ outgoingPairs t st.w index :=
          (List.mem_filter.mp hmem).1
        have hpnode : p.1 ∈ t.nodes :=
          outgoingPairs_target_mem t st.w index h.1 p hpairs
        cases hadj : arena.get p.1 with
        | none => rfl
        | some adj =>
          have hadjmix : adj.mix ∈ slots := h.2 p.1 hpnode adj hadj
          simp only
          have hst3 : Finset.sum slots
              ((if st2.moles turf.mix < p.2 then
                  finalize_eq_neighbors fuel index arena t
                    (outgoingPairs t st.w index) st2
                else st2)).moles = Finset.sum slots st2.moles := by
            split_ifs
            · exact finalize_eq_neighbors_sum_of arena t slots fuel index
                (outgoingPairs t st.w index) st2 ih
                (outgoingPairs_target_mem t st.w index h.1)
            · rfl
          set st3 := (if st2.moles turf.mix < p.2 then
              finalize_eq_neighbors fuel index arena t
                (outgoingPairs t st.w index) st2
            else st2) with hst3def
          show Finset.sum slots
            (if turf.mix ≠ adj.mix then
              transferMoles st3.moles turf.mix adj.mix p.2
            else st3.moles) = Finset.sum slots st2.moles
          split_ifs with hne
          · rw [transferMoles_sum slots st3.moles turf.mix adj.mix p.2
              hmix hadjmix hne]
            exact hst3
          · exact hst3

/-- Zone-level conservation, for any fuel and any planned weights. -/
theorem finalize_eq_zone_sum (arena : TurfGases) (t : ZoneTopo)
    (slots : Finset Nat) (h : SlotsOk arena t slots) (fuel : Nat)
    (w : Weights) (moles : Moles) :
    Finset.sum slots (finalize_eq_zone fuel arena t w moles).1
      = Finset.sum slots moles := by
  unfold finalize_eq_zone
  simp only
  exact foldl_molesum_invariant slots _ t.nodes ⟨w, moles, []⟩
    (fun st2 idx hidx => finalize_eq_sum arena t slots h fuel idx st2 hidx)

/-- Generic foldl invariant preservation. -/
theorem foldl_invariant {α β : Type} (I : β → Prop) (f : β → α → β)
    (l : List α) (b : β) (hb : I b)
    (h : ∀ b2 x, x ∈ l → I b2 → I (f b2 x)) : I (l.foldl f b) := by
  induction l generalizing b with
  | nil => exact hb
  | cons x xs ih =>
      exact ih (f b x) (h b x (List.mem_cons_self _ _) hb)
        (fun b2 y hy => h b2 y (List.mem_cons_of_mem _ hy))

/-- Every pressure event recorded by the finalizer carries a strictly
positive amount: events come only from the positive-weight filter. -/
def PressuresPos (st : FinState) : Prop := ∀ x ∈ st.pressures, (0 : ℚ) < x.1

theorem finalize_eq_pressures_pos (arena : TurfGases) (t : ZoneTopo) :
    ∀ fuel index st, PressuresPos st →
      PressuresPos (finalize_eq fuel index arena t st) := by
  intro fuel
  induction fuel with
  | zero =>
      intro index st hst
      rw [finalize_eq]
      exact hst
  | succ fuel ih =>
      intro index st hst
      rw [finalize_eq]
      cases harena : arena.get index with
      | none => exact hst
      | some turf =>
        simp only
        apply foldl_invariant PressuresPos
        · exact hst
        · intro st2 p hmem hst2
          have hpos : (0 : ℚ) < p.2 := by
            have := (List.mem_filter.mp hmem).2
            simpa using this
          cases hadj : arena.get p.1 with
          | none => exact hst2
          | some adj =>
            simp only
            have hst3 : PressuresPos
                (if st2.moles turf.mix < p.2 then
                  finalize_eq_neighbors fuel index arena t
                    (outgoingPairs t st.w index) st2
                else st2) := by
              split_ifs
              · rw [finalize_eq_neighbors]
                apply foldl_invariant PressuresPos _ _ _ hst2
                intro st4 q _ hst4
                exact ih q.1 st4 hst4
              · exact hst2
            intro x hx
            rcases List.mem_append.mp hx with hx | hx
            · exact hst3 x hx
            · rcases List.mem_singleton.mp hx with rfl
              exact hpos

/-- When every edge weight of the zone is zero, a finalization step changes
nothing except re-zeroing cells: moles and events are untouched and the
weights stay zero on every edge. -/
def ZeroOnEdges (t : ZoneTopo) (st : FinState) : Prop :=
  ∀ e ∈ t.edges, st.w e.1 e.2 = 0

theorem outgoingPairs_filter_pos_nil (t : ZoneTopo) (w : Weights)
    (index : NodeIdx) (hz : ∀ e ∈ t.edges, w e.1 e.2 = 0) :
    (outgoingPairs t w index).filter (fun p => decide (0 < p.2)) = [] := by
  rw [List.filter_eq_nil]
  intro p hp
  obtain ⟨e, he, rfl⟩ := List.mem_map.mp hp
  have he' := List.mem_filter.mp he
  have hsrc : e.1 = index := by simpa using he'.2
  have := hz e he'.1
  rw [hsrc] at this
  simp [this]

theorem finalize_eq_zero_weights (arena : TurfGases) (t : ZoneTopo)
    (fuel : Nat) (index : NodeIdx) (st : FinState)
    (hz : ZeroOnEdges t st) :
    (finalize_eq fuel index arena t st).moles = st.moles ∧
    (finalize_eq fuel index arena t st).pressures = st.pressures ∧
    ZeroOnEdges t (finalize_eq fuel index arena t st) := by
  cases fuel with
  | zero =>
      rw [finalize_eq]
      exact ⟨rfl, rfl, hz⟩
  | succ fuel =>
      rw [finalize_eq]
      cases harena : arena.get index with
      | none => exact ⟨rfl, rfl, hz⟩
      | some turf =>
        simp only
        rw [outgoingPairs_filter_pos_nil t st.w index hz]
        refine ⟨rfl, rfl, ?_⟩
        intro e he
        simp only [List.foldl_nil, zeroOutgoing]
        split_ifs with h
        · rfl
        · exact hz e he

/-- A zone whose every edge weight is zero produces no events and moves no
gas: `finalize_eq_zone` returns the unchanged moles and `none`. -/
theorem finalize_eq_zone_zero_weights (arena : TurfGases) (t : ZoneTopo)
    (fuel : Nat) (w : Weights) (moles : Moles)
    (hz : ∀ e ∈ t.edges, w e.1 e.2 = 0) :
    (finalize_eq_zone fuel arena t w moles).1 = moles ∧
    (finalize_eq_zone fuel arena t w moles).2 = none := by
  unfold finalize_eq_zone
  simp only
  have hinv : (fun st => st.moles = moles ∧ st.pressures = ([] : List (ℚ × Nat × Nat)) ∧
      ZeroOnEdges t st)
      (t.nodes.foldl (fun st idx => finalize_eq fuel idx arena t st)
        ⟨w, moles, []⟩) := by
    apply foldl_invariant
      (fun st => st.moles = moles ∧ st.pressures = [] ∧ ZeroOnEdges t st)
    · exact ⟨rfl, rfl, hz⟩
    · intro st2 idx _ ⟨h1, h2, h3⟩
      obtain ⟨g1, g2, g3⟩ := finalize_eq_zero_weights arena t fuel idx st2 h3
      exact ⟨g1.trans h1, g2.trans h2, g3⟩
  obtain ⟨h1, h2, _⟩ := hinv
  refine ⟨h1, ?_⟩
  rw [h2]
  rfl

/-! ### Local redistribution (process_zone and its helpers) -/

/-- The per-node bookkeeping record (katmos.rs:38-55). -/
structure MonstermosInfo where
  mole_delta : ℚ
  curr_transfer_amount : ℚ
  curr_transfer_dir : Option NodeIdx
  fast_done : Bool
deriving DecidableEq, Repr

instance : Inhabited MonstermosInfo := ⟨⟨0, 0, none, false⟩⟩

/-- The `HashMap<NodeIndex, MonstermosInfo>` of the redistribution pass. -/
abbrev InfoMap := NodeIdx → Option MonstermosInfo

/-- Write through an existing key: models both a `get_mut` write and
`entry(k).and_modify(|e| *e = v)` — neither inserts a missing key. -/
def updInfo (m : InfoMap) (k : NodeIdx) (v : MonstermosInfo) : InfoMap :=
  fun j => if j = k then (m k).map (fun _ => v) else m j

/-- `monstermos_fast_process` (katmos.rs:140-173): mark the node done, and
when it has surplus split the surplus evenly among the not-yet-done
neighbours, recording each slice with `adjust_eq_movement`. -/
def monstermos_fast_process (cur_index : NodeIdx) (info : InfoMap)
    (t : ZoneTopo) (w : Weights) : InfoMap × Weights :=
  match info cur_index with
  | none => (info, w)
  | some cur0 =>
    let cur_info := { cur0 with fast_done := true }
    let info1 := updInfo info cur_index cur_info
    let eligible := (t.neighbors cur_index).filter
        (fun adj => match info1 adj with
          | some adj_info => !adj_info.fast_done
          | none => false)
    if 0 < cur_info.mole_delta then
      if eligible.isEmpty then
        (updInfo info1 cur_index cur_info, w)
      else
        let moles_to_move := cur_info.mole_delta / (eligible.length : ℚ)
        let res := eligible.foldl
          (fun (s : MonstermosInfo × InfoMap × Weights) adj =>
            match s.2.1 adj with
            | some adj_info =>
              let w2 := adjust_eq_movement cur_index adj moles_to_move t s.2.2
              let ci := { s.1 with mole_delta := s.1.mole_delta - moles_to_move }
              let inf := updInfo s.2.1 adj
                { adj_info with mole_delta := adj_info.mole_delta + moles_to_move }
              (ci, updInfo inf cur_index ci, w2)
            | none => (s.1, updInfo s.2.1 cur_index s.1, s.2.2))
          (cur_info, info1, w)
        res.2
    else (info1, w)

/-- Inner neighbour scan of the giver BFS (katmos.rs:195-220): discover
not-yet-queued neighbours, record their transfer parent, and greedily satisfy
their deficit from the seed's remaining surplus, stopping when the surplus is
exhausted. -/
def gtt_inner (index cur : NodeIdx) (adjs : List NodeIdx)
    (gi : MonstermosInfo) (info : InfoMap) (q : List NodeIdx) :
    MonstermosInfo × InfoMap × List NodeIdx :=
  match adjs with
  | [] => (gi, info, q)
  | adj :: rest =>
    if gi.mole_delta ≤ 0 then (gi, info, q)
    else
      match info adj with
      | none => gtt_inner index cur rest gi (updInfo info index gi) q
      | some adj_info =>
        if adj ∈ q then
          gtt_inner index cur rest gi (updInfo info index gi) q
        else
          let q2 := q ++ [adj]
          let base := { adj_info with
                        curr_transfer_dir := some cur
                        curr_transfer_amount := (0 : ℚ) }
          if base.mole_delta < 0 then
            if gi.mole_delta < -base.mole_delta then
              let adj2 := { base with
                curr_transfer_amount := base.curr_transfer_amount - gi.mole_delta
                mole_delta := base.mole_delta + gi.mole_delta }
              let gi2 := { gi with mole_delta := (0 : ℚ) }
              gtt_inner index cur rest gi2
                (updInfo (updInfo info adj adj2) index gi2) q2
            else
              let adj2 := { base with
                curr_transfer_amount := base.curr_transfer_amount + base.mole_delta
                mole_delta := (0 : ℚ) }
              let gi2 := { gi with mole_delta := gi.mole_delta + base.mole_delta }
              gtt_inner index cur rest gi2
                (updInfo (updInfo info adj adj2) index gi2) q2
          else
            gtt_inner index cur rest gi
              (updInfo (updInfo info adj base) index gi) q2

/-- Outer BFS loop of `give_to_takers` (katmos.rs:191-223), fuel-bounded. -/
def gtt_loop (fuel : Nat) (index : NodeIdx) (t : ZoneTopo)
    (gi : MonstermosInfo) (info : InfoMap) (q : List NodeIdx) (qi : Nat) :
    MonstermosInfo × InfoMap × List NodeIdx :=
  match fuel with
  | 0 => (gi, info, q)
  | fuel + 1 =>
    match q.get? qi with
    | none => (gi, info, q)
    | some cur =>
      if gi.mole_delta ≤ 0 then (gi, info, q)
      else
        let r := gtt_inner index cur (t.neighbors cur) gi info q
        gtt_loop fuel index t r.1 r.2.1 r.2.2 (qi + 1)

/-- The reverse-order settlement replay (katmos.rs:225-247; repeated
verbatim in `take_from_givers` at katmos.rs:298-320): walk the queue
backwards propagating each node's accumulated transfer to its parent and
committing it on the transfer graph with `adjust_eq_movement`. -/
def settle_drain (t : ZoneTopo) (q : List NodeIdx) (info : InfoMap)
    (w : Weights) : InfoMap × Weights :=
  q.reverse.foldl
    (fun (s : InfoMap × Weights) cur =>
      match s.1 cur with
      | none => s
      | some turf_info =>
        match turf_info.curr_transfer_dir with
        | some dir =>
          if turf_info.curr_transfer_amount ≠ 0 then
            match s.1 dir with
            | some adj_info =>
              let w2 := adjust_eq_movement cur dir
                turf_info.curr_transfer_amount t s.2
              let inf2 := updInfo s.1 dir
                { adj_info with curr_transfer_amount :=
                    adj_info.curr_transfer_amount + turf_info.curr_transfer_amount }
              (updInfo inf2 cur
                { turf_info with curr_transfer_amount := (0 : ℚ) }, w2)
            | none => (updInfo s.1 cur turf_info, s.2)
          else (updInfo s.1 cur turf_info, s.2)
        | none => (updInfo s.1 cur turf_info, s.2))
    (info, w)

/-- `give_to_takers` (katmos.rs:175-249): for each giver seed, reset its
transfer state, BFS outward greedily feeding takers, then replay the queue
in reverse accumulating the transfers on the graph edges. -/
def give_to_takers (giver_turfs : List NodeIdx) (t : ZoneTopo)
    (info : InfoMap) (w : Weights) : InfoMap × Weights :=
  giver_turfs.foldl
    (fun (s : InfoMap × Weights) index =>
      match s.1 index with
      | none => s
      | some gv =>
        let gi := { gv with
                    curr_transfer_dir := (none : Option NodeIdx)
                    curr_transfer_amount := (0 : ℚ) }
        let inf := updInfo s.1 index gi
        let r := gtt_loop (t.nodes.length + 1) index t gi inf [index] 0
        settle_drain t r.2.2 r.2.1 s.2)
    (info, w)

/-- Inner neighbour scan of the taker BFS (katmos.rs:270-295): mirror image
of `gtt_inner`, draining surplus neighbours into the seed's deficit. -/
def tfg_inner (index cur : NodeIdx) (adjs : List NodeIdx)
    (ti : MonstermosInfo) (info : InfoMap) (q : List NodeIdx) :
    MonstermosInfo × InfoMap × List NodeIdx :=
  match adjs with
  | [] => (ti, info, q)
  | adj :: rest =>
    if 0 ≤ ti.mole_delta then (ti, info, q)
    else
      match info adj with
      | none => tfg_inner index cur rest ti (updInfo info index ti) q
      | some adj_info =>
        if adj ∈ q then
          tfg_inner index cur rest ti (updInfo info index ti) q
        else
          let q2 := q ++ [adj]
          let base := { adj_info with
                        curr_transfer_dir := some cur
                        curr_transfer_amount := (0 : ℚ) }
          if 0 < base.mole_delta then
            if -ti.mole_delta < base.mole_delta then
              let adj2 := { base with
                curr_transfer_amount := base.curr_transfer_amount - ti.mole_delta
                mole_delta := base.mole_delta + ti.mole_delta }
              let ti2 := { ti with mole_delta := (0 : ℚ) }
              tfg_inner index cur rest ti2
                (updInfo (updInfo info adj adj2) index ti2) q2
            else
              let adj2 := { base with
                curr_transfer_amount := base.curr_transfer_amount + base.mole_delta
                mole_delta := (0 : ℚ) }
              let ti2 := { ti with mole_delta := ti.mole_delta + base.mole_delta }
              tfg_inner index cur rest ti2
                (updInfo (updInfo info adj adj2) index ti2) q2
          else
            tfg_inner index cur rest ti
              (updInfo (updInfo info adj base) index ti) q2

/-- Outer BFS loop of `take_from_givers` (katmos.rs:266-297). -/
def tfg_loop (fuel : Nat) (index : NodeIdx) (t : ZoneTopo)
    (ti : MonstermosInfo) (info : InfoMap) (q : List NodeIdx) (qi : Nat) :
    MonstermosInfo × InfoMap × List NodeIdx :=
  match fuel with
  | 0 => (ti, info, q)
  | fuel + 1 =>
    match q.get? qi with
    | none => (ti, info, q)
    | some cur =>
      if 0 ≤ ti.mole_delta then (ti, info, q)
      else
        let r := tfg_inner index cur (t.neighbors cur) ti info q
        tfg_loop fuel index t r.1 r.2.1 r.2.2 (qi + 1)

/-- `take_from_givers` (katmos.rs:251-322). -/
def take_from_givers (taker_turfs : List NodeIdx) (t : ZoneTopo)
    (info : InfoMap) (w : Weights) : InfoMap × Weights :=
  taker_turfs.foldl
    (fun (s : InfoMap × Weights) index =>
      match s.1 index with
      | none => s
      | some tv =>
        let ti := { tv with
                    curr_transfer_dir := (none : Option NodeIdx)
                    curr_transfer_amount := (0 : ℚ) }
        let inf := updInfo s.1 index ti
        let r := tfg_loop (t.nodes.length + 1) index t ti inf [index] 0
        settle_drain t r.2.2 r.2.1 s.2)
    (info, w)

/-- The result of `process_zone` plus instrumentation: `ranFast` records
whether the fast pass ran, `choseGive` which settlement routine was chosen,
and `settleGivers`/`settleTakers` the (possibly recomputed) sets it chose
between.  katmos.rs also bumps the `turfs_processed` counter by the node
count; the equalize model below accounts for that directly. -/
structure ProcessOut where
  w : Weights
  ranFast : Bool
  choseGive : Bool
  settleGivers : List NodeIdx
  settleTakers : List NodeIdx

/-- The info map built at the head of `process_zone` (katmos.rs:677-687):
each node's `mole_delta` is its current total moles minus the zone average.
katmos.rs unwraps the arena lookup; nodes without an arena entry get no key
here. -/
def infoInit (t : ZoneTopo) (arena : TurfGases) (moles : Moles)
    (average_moles : ℚ) : InfoMap :=
  fun n =>
    if n ∈ t.nodes then
      (arena.get n).map (fun tm =>
        ⟨moles tm.mix - average_moles, 0, none, false⟩)
    else none

/-- A node is a giver when its current delta is strictly positive
(katmos.rs:691 and 702-706). -/
def giverPred (info : InfoMap) (i : NodeIdx) : Bool :=
  match info i with
  | some ci => decide (0 < ci.mole_delta)
  | none => false

/-- After the fast pass, a node is a taker when its delta is ≤ 0
(katmos.rs:708-712). -/
def takerPred (info : InfoMap) (i : NodeIdx) : Bool :=
  match info i with
  | some ci => decide (ci.mole_delta ≤ 0)
  | none => false

/-- The recomputed giver set after the fast pass. -/
def giversOf (t : ZoneTopo) (info : InfoMap) : List NodeIdx :=
  t.nodes.filter (giverPred info)

/-- The recomputed taker set after the fast pass. -/
def takersOf (t : ZoneTopo) (info : InfoMap) : List NodeIdx :=
  t.nodes.filter (takerPred info)

/-- The initial giver set of a zone: the first component of the partition at
katmos.rs:689-691. -/
def initGivers (t : ZoneTopo) (arena : TurfGases) (moles : Moles)
    (average_moles : ℚ) : List NodeIdx :=
  (t.nodes.partition (giverPred (infoInit t arena moles average_moles))).1

/-- The initial taker set of a zone: the second component of the partition
at katmos.rs:689-691. -/
def initTakers (t : ZoneTopo) (arena : TurfGases) (moles : Moles)
    (average_moles : ℚ) : List NodeIdx :=
  (t.nodes.partition (giverPred (infoInit t arena moles average_moles))).2

/-- The optional fast diffusion pass of `process_zone` (katmos.rs:694-700):
when `run` is set, `monstermos_fast_process` is folded over every node. -/
def fast_phase (run : Bool) (t : ZoneTopo) (info : InfoMap) (w : Weights) :
    InfoMap × Weights :=
  if run then
    t.nodes.foldl
      (fun (s : InfoMap × Weights) cur =>
        monstermos_fast_process cur s.1 t s.2)
      (info, w)
  else (info, w)

/-- `process_zone` (katmos.rs:671-728): split the nodes into givers and
takers; when both populations exceed `floor(log2(node count))` run the fast
diffusion pass over every node and recompute the two sets; finally run the
exact settlement driven from the smaller set (`give_to_takers` when the
givers are fewer, `take_from_givers` otherwise).  `Nat.log 2` is the
`((n as f32).log2().floor()) as usize` of the source. -/
def process_zone (t : ZoneTopo) (average_moles : ℚ) (arena : TurfGases)
    (moles : Moles) (w : Weights) : ProcessOut :=
  let info := infoInit t arena moles average_moles
  let part := t.nodes.partition (giverPred info)
  let log_n := Nat.log 2 t.nodes.length
  let fastRan := decide (log_n < part.1.length) && decide (log_n < part.2.length)
  let fp := fast_phase fastRan t info w
  let giver_turfs := if fastRan then giversOf t fp.1 else part.1
  let taker_turfs := if fastRan then takersOf t fp.1 else part.2
  if giver_turfs.length < taker_turfs.length then
    ⟨(give_to_takers giver_turfs t fp.1 fp.2).2, fastRan, true,
      giver_turfs, taker_turfs⟩
  else
    ⟨(take_from_givers taker_turfs t fp.1 fp.2).2, fastRan, false,
      giver_turfs, taker_turfs⟩

/-! ### Antisymmetry of the planned transfer graph -/

theorem monstermos_fast_process_antisym (cur : NodeIdx) (info : InfoMap)
    (t : ZoneTopo) (w : Weights) (h : Antisym t w) :
    Antisym t (monstermos_fast_process cur info t w).2 := by
  unfold monstermos_fast_process
  cases h0 : info cur with
  | none => exact h
  | some cur0 =>
    simp only [h0]
    split_ifs with h1 h2
    · exact h
    · apply foldl_invariant
        (fun (s : MonstermosInfo × InfoMap × Weights) => Antisym t s.2.2)
      · exact h
      · intro s adj _ hI
        cases ha : s.2.1 adj with
        | none => exact hI
        | some adj_info =>
          simp only [ha]
          exact adjust_eq_movement_antisym _ _ _ t s.2.2 hI
    · exact h

theorem settle_drain_antisym (t : ZoneTopo) (q : List NodeIdx)
    (info : InfoMap) (w : Weights) (h : Antisym t w) :
    Antisym t (settle_drain t q info w).2 := by
  unfold settle_drain
  apply foldl_invariant (fun (s : InfoMap × Weights) => Antisym t s.2) _ _ _ h
  intro s cur _ hI
  cases h1 : s.1 cur with
  | none => exact hI
  | some ti =>
    simp only [h1]
    cases h2 : ti.curr_transfer_dir with
    | none => exact hI
    | some dir =>
      simp only [h2]
      split_ifs with h3
      · cases h4 : s.1 dir with
        | none => exact hI
        | some adj =>
          simp only [h4]
          exact adjust_eq_movement_antisym _ _ _ t s.2 hI
      · exact hI

theorem give_to_takers_antisym (l : List NodeIdx) (t : ZoneTopo)
    (info : InfoMap) (w : Weights) (h : Antisym t w) :
    Antisym t (give_to_takers l t info w).2 := by
  unfold give_to_takers
  apply foldl_invariant (fun (s : InfoMap × Weights) => Antisym t s.2) _ _ _ h
  intro s index _ hI
  cases hs : s.1 index with
  | none => exact hI
  | some gv =>
    simp only [hs]
    exact settle_drain_antisym t _ _ s.2 hI

theorem take_from_givers_antisym (l : List NodeIdx) (t : ZoneTopo)
    (info : InfoMap) (w : Weights) (h : Antisym t w) :
    Antisym t (take_from_givers l t info w).2 := by
  unfold take_from_givers
  apply foldl_invariant (fun (s : InfoMap × Weights) => Antisym t s.2) _ _ _ h
  intro s index _ hI
  cases hs : s.1 index with
  | none => exact hI
  | some tv =>
    simp only [hs]
    exact settle_drain_antisym t _ _ s.2 hI

theorem fast_phase_antisym (run : Bool) (t : ZoneTopo) (info : InfoMap)
    (w : Weights) (h : Antisym t w) :
    Antisym t (fast_phase run t info w).2 := by
  unfold fast_phase
  split_ifs with h1
  · apply foldl_invariant (fun (s : InfoMap × Weights) => Antisym t s.2) _ _ _ h
    intro s cur _ hI
    exact monstermos_fast_process_antisym cur s.1 t s.2 hI
  · exact h

theorem process_zone_antisym (t : ZoneTopo) (average_moles : ℚ)
    (arena : TurfGases) (moles : Moles) (w : Weights) (h : Antisym t w) :
    Antisym t (process_zone t average_moles arena moles w).w := by
  simp only [process_zone]
  split_ifs <;>
    first
      | exact give_to_takers_antisym _ t _ _ (fast_phase_antisym _ t _ w h)
      | exact take_from_givers_antisym _ t _ _ (fast_phase_antisym _ t _ w h)

/-! ### Zone detection and boundary handlers -/

/-- Insert at the back if not already present (IndexSet / DiGraphMap node
insertion). -/
def addNodeList (l : List NodeIdx) (x : NodeIdx) : List NodeIdx :=
  if x ∈ l then l else l ++ [x]

/-- `DiGraphMap::add_edge` also inserts both endpoints as nodes. -/
def ZoneTopo.addEdge (t : ZoneTopo) (a b : NodeIdx) : ZoneTopo :=
  { nodes := addNodeList (addNodeList t.nodes a) b
    edges := if (a, b) ∈ t.edges then t.edges else t.edges ++ [(a, b)] }

/-- The mutable state of one `flood_fill_zones` traversal
(katmos.rs:544-602).  `dispatches` records the boundary-handler closures
sent down the callback channel: `(cur_index, true, limit)` for an
explosive-depressurization task, `(cur_index, false, limit)` for a
planetary-equalization task. -/
structure FloodState where
  topo : ZoneTopo
  border : List NodeIdx
  found : List NodeIdx
  total_moles : ℚ
  ignore_zone : Bool
  dispatches : List (NodeIdx × Bool × Nat)
deriving Repr

/-- One `while let Some(cur_index) = border_turfs.pop_front()` loop of
`flood_fill_zones`, fuel-bounded.  katmos.rs never consults
`equalize_hard_turf_limit` here: the cap is only captured into the
dispatched boundary-handler closures. -/
def flood_fill_loop (arena : TurfGases) (moles : Moles)
    (equalize_hard_turf_limit : Nat) : Nat → FloodState → FloodState
  | 0, st => st
  | fuel + 1, st =>
    match st.border with
    | [] => st
    | cur :: rest =>
      match arena.get cur with
      | none => st
      | some cur_turf =>
        let st1 := { st with
                     border := rest
                     total_moles := st.total_moles + moles cur_turf.mix }
        let st2 := (arena.edgesOf cur).foldl
          (fun (s : FloodState) e =>
            match arena.get e.dst with
            | none => s
            | some adj_mixture =>
              let s1 := if adj_mixture.enabled then
                  { s with topo := s.topo.addEdge cur e.dst }
                else s
              if e.dst ∈ s1.found then s1
              else
                let s2 := { s1 with found := s1.found ++ [e.dst] }
                let s3 := if adj_mixture.enabled then
                    { s2 with border := s2.border ++ [e.dst] }
                  else s2
                if s3.ignore_zone then s3
                else
                  let s4 := if adj_mixture.is_immutable then
                      { s3 with
                        dispatches := s3.dispatches
                          ++ [(cur, true, equalize_hard_turf_limit)]
                        ignore_zone := true }
                    else s3
                  if adj_mixture.planetary_atmos.isSome && e.firelock then
                    { s4 with
                      dispatches := s4.dispatches
                        ++ [(cur, false, equalize_hard_turf_limit)]
                      ignore_zone := true }
                  else s4)
          st1
        flood_fill_loop arena moles equalize_hard_turf_limit fuel st2

/-- The result of one `flood_fill_zones` call: the updated shared
`found_turfs` set, the dispatched boundary tasks, and the zone (transfer
graph topology + accumulated total moles) unless the zone was marked
ignored. -/
structure FloodResult where
  found : List NodeIdx
  dispatches : List (NodeIdx × Bool × Nat)
  zone : Option (ZoneTopo × ℚ)
deriving Repr

/-- `flood_fill_zones` (katmos.rs:544-602). -/
def flood_fill_zones (fuel : Nat) (index : NodeIdx)
    (equalize_hard_turf_limit : Nat) (found_turfs : List NodeIdx)
    (arena : TurfGases) (moles : Moles) : FloodResult :=
  let st := flood_fill_loop arena moles equalize_hard_turf_limit fuel
    ⟨⟨[index], []⟩, [index], addNodeList found_turfs index, 0, false, []⟩
  ⟨st.found, st.dispatches,
    if st.ignore_zone then none else some (st.topo, st.total_moles)⟩

/-- The state of the first flood-fill of `explosively_depressurize`
(katmos.rs:329-396).  `expansions` is ghost instrumentation counting the
dequeued cells whose adjacency list was actually scanned (the scan is
skipped once the queue position exceeds the hard limit). -/
structure DepressP1State where
  turfs : List NodeIdx
  qi : Nat
  space_turfs : List NodeIdx
  warned : Bool
  firelocks : List (Nat × Nat)
  expansions : Nat
deriving Repr

/-- First flood-fill of `explosively_depressurize`: walk the queue; a
planetary cell sets the warned flag and breaks; an immutable cell joins the
space set (its `pressure_specific_target` host write is not modelled); an
enabled cell whose 1-based queue position is within the hard limit has all
its arena-present neighbours inserted, recording a `consider_firelocks`
call for each newly inserted neighbour reached over a firelock edge. -/
def depress_phase1_loop (arena : TurfGases) (equalize_hard_turf_limit : Nat) :
    Nat → DepressP1State → DepressP1State
  | 0, st => st
  | fuel + 1, st =>
    match st.turfs.get? st.qi with
    | none => st
    | some cur =>
      let st1 := { st with qi := st.qi + 1 }
      match arena.get cur with
      | none => depress_phase1_loop arena equalize_hard_turf_limit fuel st1
      | some cur_mixture =>
        if cur_mixture.planetary_atmos.isSome then
          { st1 with warned := true }
        else if cur_mixture.is_immutable then
          depress_phase1_loop arena equalize_hard_turf_limit fuel
            { st1 with space_turfs := addNodeList st1.space_turfs cur }
        else if cur_mixture.enabled then
          if equalize_hard_turf_limit < st1.qi then
            depress_phase1_loop arena equalize_hard_turf_limit fuel st1
          else
            let r := (arena.edgesOf cur).foldl
              (fun (s : List NodeIdx × List (Nat × Nat)) e =>
                match arena.get e.dst with
                | none => s
                | some adj_mix =>
                  if e.dst ∈ s.1 then s
                  else if e.firelock then
                    (s.1 ++ [e.dst], s.2 ++ [(cur_mixture.id, adj_mix.id)])
                  else (s.1 ++ [e.dst], s.2))
              (st1.turfs, [])
            depress_phase1_loop arena equalize_hard_turf_limit fuel
              { st1 with
                turfs := r.1
                firelocks := st1.firelocks ++ r.2
                expansions := st1.expansions + 1 }
        else depress_phase1_loop arena equalize_hard_turf_limit fuel st1

/-- The per-node record of the depressurization drain (katmos.rs:57-70). -/
structure ReducedInfo where
  curr_transfer_amount : ℚ
  curr_transfer_dir : Option NodeIdx
deriving DecidableEq, Repr

instance : Inhabited ReducedInfo := ⟨⟨0, none⟩⟩

/-- State of the second flood-fill of `explosively_depressurize`
(katmos.rs:402-443). -/
structure DepressP2State where
  progression : List NodeIdx
  qi : Nat
  info : NodeIdx → ReducedInfo
  total_moles : ℚ
  space_turf_len : Nat

/-- Second flood-fill: BFS outward from the space region over mutable
cells, assigning each newly discovered cell its transfer parent (the
`pressure_specific_target` host writes are not modelled). -/
def depress_phase2_loop (arena : TurfGases) (moles : Moles)
    (equalize_hard_turf_limit : Nat) : Nat → DepressP2State → DepressP2State
  | 0, st => st
  | fuel + 1, st =>
    match st.progression.get? st.qi with
    | none => st
    | some cur =>
      match arena.get cur with
      | none => st
      | some cur_mixture =>
        let st1 := { st with
                     qi := st.qi + 1
                     total_moles := st.total_moles + moles cur_mixture.mix
                     space_turf_len := st.space_turf_len +
                       (if cur_mixture.is_immutable then 1 else 0) }
        if equalize_hard_turf_limit < st1.qi then
          depress_phase2_loop arena moles equalize_hard_turf_limit fuel st1
        else
          let st2 := (arena.adjacent_node_ids cur).foldl
            (fun (s : DepressP2State) adj =>
              match arena.get adj with
              | none => s
              | some adj_mixture =>
                if !adj_mixture.is_immutable && adj ∉ s.progression then
                  { s with
                  progression := s.progression ++ [adj]
                  info := fun j => if j = adj then
                        { s.info adj with curr_transfer_dir := some cur }
                      else s.info j }
                else s)
            st1
          depress_phase2_loop arena moles equalize_hard_turf_limit fuel st2

/-- State of the reverse-order drain of `explosively_depressurize`
(katmos.rs:469-535): the drained arena moles, the `high_pressure_delta`
list (by turf id), the `pressure_difference` writes and the
`handle_decompression_floor_rip` calls. -/
structure DrainState where
  info : NodeIdx → ReducedInfo
  moles : Moles
  hpd : List Nat
  pressure_events : List (Nat × ℚ)
  floor_rips : List (Nat × ℚ)

/-- The drain: in reverse discovery order, clear each cell's mixture
(`clear_air`, modelled from the spec as zeroing the slot since
`gas_mixture.rs` is not under `src/`; the `katmos_slow_decompression`
feature path is not modelled), append the turf to `high_pressure_delta`,
and push the accumulated transfer to the parent, recording the
pressure-difference and floor-rip host calls. -/
def depress_drain (arena : TurfGases) (progression : List NodeIdx)
    (info0 : NodeIdx → ReducedInfo) (moles0 : Moles) : DrainState :=
  progression.reverse.foldl
    (fun (s : DrainState) cur =>
      match arena.get cur with
      | none => s
      | some cur_mixture =>
        match (s.info cur).curr_transfer_dir with
        | none => s
        | some adj =>
          let moles1 : Moles := fun i => if i = cur_mixture.mix then 0
            else s.moles i
          let hpd1 := if cur_mixture.id ∈ s.hpd then s.hpd
            else s.hpd ++ [cur_mixture.id]
          match arena.get adj with
          | none => { s with moles := moles1, hpd := hpd1 }
          | some adj_mixture =>
            let sum := moles1 adj_mixture.mix
            let cur_info2 := { s.info cur with curr_transfer_amount :=
                (s.info cur).curr_transfer_amount + sum }
            let info2 : NodeIdx → ReducedInfo := fun j =>
              if j = cur then cur_info2 else s.info j
            let adj_info2 := { info2 adj with curr_transfer_amount :=
                (info2 adj).curr_transfer_amount + cur_info2.curr_transfer_amount }
            let info3 : NodeIdx → ReducedInfo := fun j =>
              if j = adj then adj_info2 else info2 j
            { info := info3
              moles := moles1
              hpd := hpd1
              pressure_events := s.pressure_events
                ++ [(cur_mixture.id, cur_info2.curr_transfer_amount)]
                ++ (if adj_info2.curr_transfer_dir = none then
                      [(adj_mixture.id, adj_info2.curr_transfer_amount)]
                    else [])
              floor_rips := s.floor_rips ++ [(cur_mixture.id, sum)] })
    ⟨info0, moles0, [], [], []⟩

/-- The observable outcome of one `explosively_depressurize` invocation. -/
structure DepressOut where
  moles : Moles
  space_turfs : List NodeIdx
  warned : Bool
  firelocks : List (Nat × Nat)
  hpd : List Nat
  pressure_events : List (Nat × ℚ)
  floor_rips : List (Nat × ℚ)

/-- `explosively_depressurize` (katmos.rs:324-540): first flood-fill finds
the space region (aborting on a planetary marker), then a second flood-fill
builds the toward-space tree, then the drain clears cells in reverse
discovery order. -/
def explosively_depressurize (fuel : Nat) (initial_index : NodeIdx)
    (equalize_hard_turf_limit : Nat) (arena : TurfGases) (moles : Moles) :
    DepressOut :=
  let p1 := depress_phase1_loop arena equalize_hard_turf_limit fuel
    ⟨[initial_index], 0, [], false, [], 0⟩
  if p1.warned || p1.space_turfs.isEmpty then
    ⟨moles, p1.space_turfs, p1.warned, p1.firelocks, [], [], []⟩
  else
    let prog0 := p1.space_turfs.filter (fun i => (arena.get i).isSome)
    let p2 := depress_phase2_loop arena moles equalize_hard_turf_limit fuel
      ⟨prog0, 0, fun _ => default, 0, 0⟩
    let d := depress_drain arena p2.progression p2.info moles
    ⟨d.moles, p1.space_turfs, false, p1.firelocks, d.hpd,
      d.pressure_events, d.floor_rips⟩

/-! ### The equalization scheduler -/

/-- Modelled from the spec: `adjacent_mixes` (turfs/mod.rs, not under
`src/`) yields the total moles of each arena-present adjacent turf's
mixture. -/
def adjacentMoles (arena : TurfGases) (moles : Moles) (n : NodeIdx) :
    List ℚ :=
  (arena.edgesOf n).filterMap
    (fun e => (arena.get e.dst).map (fun tm => moles tm.mix))

/-- `f32::abs`, written out so that it evaluates. -/
def qabs (x : ℚ) : ℚ := if x < 0 then -x else x

theorem qabs_eq_abs (x : ℚ) : qabs x = |x| := by
  unfold qabs
  split_ifs with h
  · exact (abs_of_neg h).symm
  · exact (abs_of_nonneg (not_lt.mp h)).symm

/-- The unshareable short-circuit of `equalize` (katmos.rs:835-842): the
seed's own total moles is below `10.0`, OR every adjacent mixture's total
moles is within `MINIMUM_MOLES_DELTA_TO_MOVE` of it.  The constant
`MINIMUM_MOLES_DELTA_TO_MOVE` lives in `gas/constants.rs`, which is not
under `src/`, so it is a parameter `min_delta` here. -/
def is_unshareable (our_moles : ℚ) (adj_moles : List ℚ) (min_delta : ℚ) :
    Bool :=
  decide (our_moles < 10) ||
    adj_moles.all (fun m => decide (qabs (m - our_moles) < min_delta))

/-- The skip predicate as §4.4 of the spec words it, for comparison with
`is_unshareable`: own total moles below the minimum-transfer threshold AND
every neighbour's total moles within that same threshold. -/
def spec_unshareable (our_moles : ℚ) (adj_moles : List ℚ) (min_delta : ℚ) :
    Bool :=
  decide (our_moles < min_delta) &&
    adj_moles.all (fun m => decide (qabs (m - our_moles) < min_delta))

/-- The zone-detection stage of `equalize` (katmos.rs:820-851): drain the
batch, skipping seeds already found, seeds missing from the arena, disabled
or isolated seeds, and unshareable seeds; flood-fill the rest, collecting
the zones whose traversal hit no boundary. -/
def detect_zones (fuel equalize_hard_turf_limit : Nat)
    (high_pressure_turfs : List NodeIdx) (arena : TurfGases) (moles : Moles)
    (min_delta : ℚ) : List (ZoneTopo × ℚ) × List NodeIdx :=
  high_pressure_turfs.foldl
    (fun (s : List (ZoneTopo × ℚ) × List NodeIdx) cur =>
      if cur ∈ s.2 then s
      else
        match arena.get cur with
        | none => s
        | some cur_mixture =>
          if !cur_mixture.enabled || (arena.adjacent_node_ids cur).isEmpty then
            s
          else if is_unshareable (moles cur_mixture.mix)
              (adjacentMoles arena moles cur) min_delta then
            s
          else
            let r := flood_fill_zones fuel cur equalize_hard_turf_limit
              s.2 arena moles
            match r.zone with
            | some z => (s.1 ++ [z], r.found)
            | none => (s.1, r.found))
    ([], [])

/-- The outcome of one `equalize` invocation (katmos.rs:812-887):
the `turfs_processed` counter, the cancelled flag, the number of
elapsed-time checks performed (ghost instrumentation: the source checks
`start_time.elapsed() >= remaining_time` at katmos.rs:853 and 870), the
pressure-event groups sent, and the resulting arena moles. -/
structure EqualizeOut where
  processed : Nat
  cancelled : Bool
  checks : Nat
  pressures : List (List (ℚ × Nat × Nat))
  moles : Moles

/-- `equalize` (katmos.rs:812-887).  The elapsed-time budget is embedded as
a clock oracle: `clock k` is the result of the `k`-th
`start_time.elapsed() >= remaining_time` comparison.  Zone detection runs
first; the first checkpoint follows detection, the second follows the
(parallel, here sequential) redistribution phase; finalization and event
sending run only when neither checkpoint trips. -/
def equalize (fuel equalize_hard_turf_limit : Nat)
    (high_pressure_turfs : List NodeIdx) (arena : TurfGases) (moles : Moles)
    (min_delta : ℚ) (clock : Nat → Bool) : EqualizeOut :=
  let det := detect_zones fuel equalize_hard_turf_limit high_pressure_turfs
    arena moles min_delta
  let zoned_turfs := det.1
  if clock 0 then ⟨0, true, 1, [], moles⟩
  else
    let processed := (zoned_turfs.map (fun z => z.1.nodes.length)).sum
    let plans := zoned_turfs.map (fun z =>
      (z.1, (process_zone z.1 (z.2 / (z.1.nodes.length : ℚ)) arena moles
        (fun _ _ => 0)).w))
    if clock 1 then ⟨processed, true, 2, [], moles⟩
    else
      let fin := plans.foldl
        (fun (s : Moles × List (List (ℚ × Nat × Nat))) tz =>
          let r := finalize_eq_zone fuel arena tz.1 tz.2 s.1
          match r.2 with
          | some ps => (r.1, s.2 ++ [ps])
          | none => (r.1, s.2))
        (moles, [])
      ⟨processed, false, 2, fin.2, fin.1⟩

/-! ### Concrete fixtures used by witnesses and counterexamples -/

/-- A two-cell zone: cells 0 and 1, bidirectionally adjacent, enabled,
mutable, non-planetary, bound to arena slots 0 and 1. -/
def exArena : TurfGases :=
  ⟨fun n => if n = 0 then some ⟨10, 0, true, false, none⟩
    else if n = 1 then some ⟨11, 1, true, false, none⟩
    else none,
   [⟨0, 1, false⟩, ⟨1, 0, false⟩]⟩

def exTopo : ZoneTopo := ⟨[0, 1], [(0, 1), (1, 0)]⟩

def exMoles : Moles := fun i => if i = 0 then 10 else 0

/-- A seed with 5 moles next to a 9999-mole neighbour. -/
def exArena2 : TurfGases :=
  ⟨fun n => if n = 0 then some ⟨20, 0, true, false, none⟩
    else if n = 1 then some ⟨21, 1, true, false, none⟩
    else none,
   [⟨0, 1, false⟩, ⟨1, 0, false⟩]⟩

def exMoles2 : Moles := fun i => if i = 0 then 5 else 9999

/-- A three-cell path 0 – 1 – 2, all enabled, mutable, non-planetary. -/
def exArena3 : TurfGases :=
  ⟨fun n => if n ≤ 2 then some ⟨30 + n, n, true, false, none⟩ else none,
   [⟨0, 1, false⟩, ⟨1, 0, false⟩, ⟨1, 2, false⟩, ⟨2, 1, false⟩]⟩

def exMoles3 : Moles := fun _ => 0

/-- A single cell carrying a planetary-atmosphere marker. -/
def exArenaP : TurfGases :=
  ⟨fun n => if n = 0 then some ⟨40, 0, true, false, some 7⟩ else none, []⟩

def exMolesP : Moles := fun _ => 50

/-! ### Claim theorems -/

/-- C10: every planning-phase weight update goes through
`adjust_eq_movement`, which adds the amount on edge `a → b` and subtracts it
on edge `b → a` when each exists; hence starting from all-zero weights,
after `process_zone` every pair of opposite edges both present in the
transfer graph satisfies `weight(a→b) = -weight(b→a)`. -/
theorem C10_plan_antisymmetric (t : ZoneTopo) (average_moles : ℚ)
    (arena : TurfGases) (moles : Moles) (w : Weights)
    (hzero : ∀ a b, w a b = 0) :
    Antisym t (process_zone t average_moles arena moles w).w := by
  apply process_zone_antisym
  intro p _ _
  rw [hzero, hzero, neg_zero]

theorem C10_plan_antisymmetric_witness :
    (∀ a b : NodeIdx, (0 : ℚ) = 0) ∧
    Antisym exTopo
      (process_zone exTopo 5 exArena exMoles (fun _ _ => 0)).w :=
  ⟨fun _ _ => rfl,
   C10_plan_antisymmetric exTopo 5 exArena exMoles (fun _ _ => 0)
     (fun _ _ => rfl)⟩

/-- The set of gas-arena slots bound by a zone's nodes. -/
def zoneSlots (arena : TurfGases) (t : ZoneTopo) : Finset Nat :=
  (t.nodes.filterMap (fun n => (arena.get n).map TurfMixture.mix)).toFinset

/-- C1: for a zone with no boundary cells (every node present in the arena,
mutable and non-planetary) whose transfer-graph edges stay inside its node
set, a redistribution pass (`process_zone`) followed by finalization
(`finalize_eq_zone`) leaves the total moles of the zone's slots unchanged —
exactly, since the model works in ℚ.  The planning step never touches
moles, and each finalizer commit moves the same quantity it removes. -/
theorem C1_conservation (t : ZoneTopo) (arena : TurfGases) (moles : Moles)
    (average_moles : ℚ) (w : Weights) (fuel : Nat)
    (hedges : ∀ e ∈ t.edges, e.1 ∈ t.nodes ∧ e.2 ∈ t.nodes)
    (hpresent : ∀ n ∈ t.nodes, (arena.get n).isSome = true)
    (hboundary : ∀ n ∈ t.nodes,
      ((arena.get n).all
        (fun tm => !tm.is_immutable && tm.planetary_atmos == none)) = true) :
    Finset.sum (zoneSlots arena t)
      (finalize_eq_zone fuel arena t
        (process_zone t average_moles arena moles w).w moles).1
      = Finset.sum (zoneSlots arena t) moles := by
  apply finalize_eq_zone_sum
  constructor
  · exact hedges
  · intro n hn tm htm
    simp only [zoneSlots, List.mem_toFinset, List.mem_filterMap]
    exact ⟨n, hn, by rw [htm]; rfl⟩

theorem C1_conservation_witness :
    (∀ e ∈ exTopo.edges, e.1 ∈ exTopo.nodes ∧ e.2 ∈ exTopo.nodes) ∧
    (∀ n ∈ exTopo.nodes, (exArena.get n).isSome = true) ∧
    (∀ n ∈ exTopo.nodes,
      ((exArena.get n).all
        (fun tm => !tm.is_immutable && tm.planetary_atmos == none)) = true) ∧
    Finset.sum (zoneSlots exArena exTopo)
      (finalize_eq_zone 4 exArena exTopo
        (process_zone exTopo 5 exArena exMoles (fun _ _ => 0)).w exMoles).1
      = Finset.sum (zoneSlots exArena exTopo) exMoles := by
  refine ⟨by decide, by decide, by decide, ?_⟩
  exact C1_conservation exTopo exArena exMoles 5 (fun _ _ => 0) 4
    (by decide) (by decide) (by decide)

/-- C6: finalization records an event only for directed edges whose planned
weight is strictly positive (every recorded event amount is > 0), and a
zone in which every edge weight is zero moves no gas and produces no
pressure list (`finalize_eq_zone` returns `none`). -/
theorem C6_finalize_events (fuel : Nat) (arena : TurfGases) (t : ZoneTopo)
    (w : Weights) (moles : Moles) :
    (∀ ev ∈ ((finalize_eq_zone fuel arena t w moles).2.getD []),
      (0 : ℚ) < ev.1) ∧
    ((∀ e ∈ t.edges, w e.1 e.2 = 0) →
      (finalize_eq_zone fuel arena t w moles).1 = moles ∧
      (finalize_eq_zone fuel arena t w moles).2 = none) := by
  constructor
  · have hpos : PressuresPos
        (t.nodes.foldl (fun st idx => finalize_eq fuel idx arena t st)
          ⟨w, moles, []⟩) := by
      apply foldl_invariant PressuresPos
      · intro x hx
        simp at hx
      · intro st2 idx _ h
        exact finalize_eq_pressures_pos arena t fuel idx st2 h
    intro ev hev
    unfold finalize_eq_zone at hev
    simp only at hev
    by_cases hemp : (t.nodes.foldl
        (fun st idx => finalize_eq fuel idx arena t st)
        ⟨w, moles, []⟩).pressures.isEmpty
    · rw [if_pos hemp] at hev
      simp at hev
    · rw [if_neg hemp] at hev
      exact hpos ev hev
  · intro hz
    exact finalize_eq_zone_zero_weights arena t fuel w moles hz

theorem C6_finalize_events_witness :
    (∀ e ∈ exTopo.edges, ((fun _ _ => (0 : ℚ)) e.1 e.2) = 0) ∧
    (finalize_eq_zone 3 exArena exTopo (fun _ _ => 0) exMoles).1 = exMoles ∧
    (finalize_eq_zone 3 exArena exTopo (fun _ _ => 0) exMoles).2 = none := by
  have hz : ∀ e ∈ exTopo.edges, ((fun _ _ => (0 : ℚ)) e.1 e.2) = 0 := by
    decide
  exact ⟨hz,
    ((C6_finalize_events 3 exArena exTopo (fun _ _ => 0) exMoles).2 hz).1,
    ((C6_finalize_events 3 exArena exTopo (fun _ _ => 0) exMoles).2 hz).2⟩

/-- C2: the claim says the scheduler skips a seed as unshareable exactly
when its own moles are below the minimum-transfer threshold AND every
neighbour is within that threshold.  The code (katmos.rs:835-842) instead
skips when its own moles are below the constant `10.0` OR every neighbour
is within `MINIMUM_MOLES_DELTA_TO_MOVE`.  Concretely: a seed holding 5
moles next to a 9999-mole neighbour is skipped (no flood-fill, no zone)
although the claim's conjunction is false there. -/
theorem C2_counterexample :
    (detect_zones 10 2000 [0] exArena2 exMoles2 2).1 = [] ∧
    is_unshareable (exMoles2 0) (adjacentMoles exArena2 exMoles2 0)
      2 = true ∧
    spec_unshareable (exMoles2 0) (adjacentMoles exArena2 exMoles2 0)
      2 = false := by
  decide

/-- C2 (amended): the seed is skipped as unshareable exactly when its own
total moles is below `10.0` OR every adjacent mixture's total moles differs
from its own by less than `MINIMUM_MOLES_DELTA_TO_MOVE` — a disjunction of
two differently-thresholded tests, not the spec's conjunction. -/
theorem C2_unshareable_characterization (our_moles : ℚ) (adj_moles : List ℚ)
    (min_delta : ℚ) :
    is_unshareable our_moles adj_moles min_delta = true ↔
      (our_moles < 10 ∨ ∀ m ∈ adj_moles, |m - our_moles| < min_delta) := by
  simp [is_unshareable, List.all_eq_true, qabs_eq_abs]

/-- C3: the claim says the zone-detection flood-fill caps the number of
visited cells at the equalize-hard-turf-limit.  `flood_fill_zones`
(katmos.rs:544-602) never consults the limit: with the cap set to 1, the
traversal of a three-cell path still builds a zone with 3 nodes. -/
theorem C3_counterexample :
    ((flood_fill_zones 10 0 1 [] exArena3 exMoles3).zone.map
      (fun z => z.1.nodes.length)).getD 0 = 3 ∧ 1 < 3 := by
  decide

theorem depress_phase1_expansions_invariant (arena : TurfGases)
    (limit : Nat) :
    ∀ fuel st, st.expansions ≤ st.qi → st.expansions ≤ limit →
      (depress_phase1_loop arena limit fuel st).expansions
          ≤ (depress_phase1_loop arena limit fuel st).qi ∧
        (depress_phase1_loop arena limit fuel st).expansions ≤ limit := by
  intro fuel
  induction fuel with
  | zero =>
      intro st h1 h2
      rw [depress_phase1_loop]
      exact ⟨h1, h2⟩
  | succ fuel ih =>
      intro st h1 h2
      rw [depress_phase1_loop]
      cases hget : st.turfs.get? st.qi with
      | none => exact ⟨h1, h2⟩
      | some cur =>
        simp only
        cases harena : arena.get cur with
        | none =>
            exact ih _ (by show st.expansions ≤ st.qi + 1; omega) h2
        | some cm =>
          simp only
          split_ifs with hplan himm hen hlim
          · exact ⟨by show st.expansions ≤ st.qi + 1; omega, h2⟩
          · exact ih _ (by show st.expansions ≤ st.qi + 1; omega) h2
          · exact ih _ (by show st.expansions ≤ st.qi + 1; omega) h2
          · refine ih _ (by show st.expansions + 1 ≤ st.qi + 1; omega)
              (by show st.expansions + 1 ≤ limit; omega)
          · exact ih _ (by show st.expansions ≤ st.qi + 1; omega) h2

/-- C3 (amended): the hard cap is not applied by the zone-detection
flood-fill; it is applied inside the boundary handlers' flood-fills.  In
the first flood-fill of `explosively_depressurize`, a dequeued cell's
adjacency list is scanned only while the 1-based queue position is within
the limit, so at most `limit` cells are ever expanded — cells beyond that
contribute nothing to the frontier. -/
theorem C3_boundary_cap (arena : TurfGases) (limit fuel : Nat)
    (initial_index : NodeIdx) :
    (depress_phase1_loop arena limit fuel
      ⟨[initial_index], 0, [], false, [], 0⟩).expansions ≤ limit :=
  (depress_phase1_expansions_invariant arena limit fuel
    ⟨[initial_index], 0, [], false, [], 0⟩ (Nat.le_refl 0)
    (Nat.zero_le limit)).2

/-- C9: if the first flood-fill of `explosively_depressurize` encounters a
cell carrying a planetary-atmosphere marker, the whole depressurization
aborts before the draining phase: the arena moles are untouched and no
high-pressure-delta append, pressure-difference write, or floor-rip call is
produced. -/
theorem C9_planet_aborts (fuel : Nat) (initial_index : NodeIdx)
    (limit : Nat) (arena : TurfGases) (moles : Moles)
    (hw : (depress_phase1_loop arena limit fuel
      ⟨[initial_index], 0, [], false, [], 0⟩).warned = true) :
    (explosively_depressurize fuel initial_index limit arena moles).moles
      = moles ∧
    (explosively_depressurize fuel initial_index limit arena moles).hpd
      = [] ∧
    (explosively_depressurize fuel initial_index limit arena
      moles).pressure_events = [] ∧
    (explosively_depressurize fuel initial_index limit arena
      moles).floor_rips = [] := by
  simp [explosively_depressurize, hw]

theorem C9_planet_aborts_witness :
    (depress_phase1_loop exArenaP 2000 5
      ⟨[0], 0, [], false, [], 0⟩).warned = true ∧
    (explosively_depressurize 5 0 2000 exArenaP exMolesP).moles
      = exMolesP ∧
    (explosively_depressurize 5 0 2000 exArenaP exMolesP).floor_rips
      = [] := by
  have hw : (depress_phase1_loop exArenaP 2000 5
      ⟨[0], 0, [], false, [], 0⟩).warned = true := by decide
  exact ⟨hw, (C9_planet_aborts 5 0 2000 exArenaP exMolesP hw).1,
    (C9_planet_aborts 5 0 2000 exArenaP exMolesP hw).2.2.2⟩

/-- C4: the scheduler consults the elapsed-time budget at exactly the two
phase boundaries — after zone detection and after the redistribution phase
(when the first checkpoint trips it returns at once, so only one comparison
runs); tripping either checkpoint abandons the remaining phases and returns
the cells-processed count with the cancelled flag set, no events sent and
no gas moved; otherwise the cancelled flag is false.  The processed count
is always a sum over whole zones (0 before redistribution, the full zone
total after), never a partial zone. -/
theorem C4_two_checkpoints (fuel limit : Nat) (batch : List NodeIdx)
    (arena : TurfGases) (moles : Moles) (min_delta : ℚ)
    (clock : Nat → Bool) :
    (equalize fuel limit batch arena moles min_delta clock).cancelled
      = (clock 0 || clock 1) ∧
    (equalize fuel limit batch arena moles min_delta clock).checks
      = (if clock 0 then 1 else 2) ∧
    (clock 0 = true →
      (equalize fuel limit batch arena moles min_delta clock).processed = 0 ∧
      (equalize fuel limit batch arena moles min_delta clock).moles = moles ∧
      (equalize fuel limit batch arena moles min_delta clock).pressures
        = []) ∧
    (clock 0 = false →
      (equalize fuel limit batch arena moles min_delta clock).processed
        = ((detect_zones fuel limit batch arena moles min_delta).1.map
            (fun z => z.1.nodes.length)).sum) ∧
    (clock 0 = false → clock 1 = true →
      (equalize fuel limit batch arena moles min_delta clock).moles = moles ∧
      (equalize fuel limit batch arena moles min_delta clock).pressures
        = []) := by
  cases h0 : clock 0 <;> cases h1 : clock 1 <;>
    simp [equalize, h0, h1]

theorem C4_two_checkpoints_witness :
    ((fun _ : Nat => true) 0 = true) ∧
    (equalize 3 2000 [] exArena exMoles (1 / 10)
      (fun _ => true)).processed = 0 ∧
    (equalize 3 2000 [] exArena exMoles (1 / 10)
      (fun _ => true)).moles = exMoles ∧
    (equalize 3 2000 [] exArena exMoles (1 / 10)
      (fun _ => true)).pressures = [] := by
  refine ⟨rfl, ?_⟩
  exact (C4_two_checkpoints 3 2000 [] exArena exMoles (1 / 10)
    (fun _ => true)).2.2.1 rfl

theorem process_zone_ranFast (t : ZoneTopo) (average_moles : ℚ)
    (arena : TurfGases) (moles : Moles) (w : Weights) :
    (process_zone t average_moles arena moles w).ranFast
      = (decide (Nat.log 2 t.nodes.length
            < (initGivers t arena moles average_moles).length) &&
         decide (Nat.log 2 t.nodes.length
            < (initTakers t arena moles average_moles).length)) := by
  simp only [process_zone, initGivers, initTakers]
  split_ifs <;> rfl

theorem process_zone_choseGive (t : ZoneTopo) (average_moles : ℚ)
    (arena : TurfGases) (moles : Moles) (w : Weights) :
    (process_zone t average_moles arena moles w).choseGive
      = decide ((process_zone t average_moles arena moles w).settleGivers.length
          < (process_zone t average_moles arena moles w).settleTakers.length) := by
  simp only [process_zone]
  split_ifs <;> simp_all

theorem nat_log2_iff_logb (n c : Nat) (hn : n ≠ 0) :
    Nat.log 2 n < c ↔ Real.logb 2 (n : ℝ) < (c : ℝ) := by
  rw [← Nat.lt_pow_iff_log_lt (by norm_num) hn]
  rw [Real.logb_lt_iff_lt_rpow (by norm_num)
    (by exact_mod_cast Nat.pos_of_ne_zero hn)]
  rw [Real.rpow_natCast]
  exact_mod_cast Iff.rfl

/-- C5: the fast diffusion pass of `process_zone` runs iff both the giver
count and the taker count exceed log₂ of the zone's node count (the
source's `floor(log2 n)` comparison against an integer count is exactly the
real-log comparison), and the exact settlement is driven from the smaller
of the (recomputed, when the fast pass ran) giver and taker sets:
`give_to_takers` when the givers are strictly fewer, `take_from_givers`
otherwise. -/
theorem C5_strategy (t : ZoneTopo) (average_moles : ℚ) (arena : TurfGases)
    (moles : Moles) (w : Weights) (hn : t.nodes ≠ []) :
    ((process_zone t average_moles arena moles w).ranFast = true ↔
      (Real.logb 2 (t.nodes.length : ℝ)
          < ((initGivers t arena moles average_moles).length : ℝ) ∧
       Real.logb 2 (t.nodes.length : ℝ)
          < ((initTakers t arena moles average_moles).length : ℝ))) ∧
    ((process_zone t average_moles arena moles w).choseGive = true ↔
      (process_zone t average_moles arena moles w).settleGivers.length
        < (process_zone t average_moles arena moles w).settleTakers.length) := by
  have hlen : t.nodes.length ≠ 0 := fun hl =>
    hn (List.eq_nil_of_length_eq_zero hl)
  constructor
  · rw [process_zone_ranFast, Bool.and_eq_true, decide_eq_true_eq,
      decide_eq_true_eq, nat_log2_iff_logb _ _ hlen,
      nat_log2_iff_logb _ _ hlen]
  · rw [process_zone_choseGive, decide_eq_true_eq]

theorem C5_strategy_witness :
    exTopo.nodes ≠ [] ∧
    ((process_zone exTopo 5 exArena exMoles (fun _ _ => 0)).choseGive = true ↔
      (process_zone exTopo 5 exArena exMoles
          (fun _ _ => 0)).settleGivers.length
        < (process_zone exTopo 5 exArena exMoles
            (fun _ _ => 0)).settleTakers.length) := by
  refine ⟨by decide, ?_⟩
  exact (C5_strategy exTopo 5 exArena exMoles (fun _ _ => 0) (by decide)).2

end Auxmos
